import Mathlib

/-!
Shallow embedding of the plugin lifecycle orchestrator
(`afm/core/installer.py` together with the parts of
`afm/core/api_client.py` it calls).

Python strings are modelled as `List Char`; Python `dict`s (which preserve
insertion order) as association lists with insertion-order update semantics;
the filesystem and the two remote backends as explicit fields of a `World`
state record.  Every orchestrator operation is a function
`World → Option PyError × World`: `none` in the first component models a
normal return, `some e` models an uncaught Python exception, and the second
component is the disk/remote state when the operation finished (Python
mutates files in place, so an exception can leave a partially-updated
world).
-/

namespace AFM

/-- Python `str`, modelled as a list of characters. -/
abbrev Str := List Char

/-- The whitespace characters stripped by Python's `str.strip()`
(ASCII subset: space, tab, newline, carriage return, vertical tab,
form feed). -/
def isPySpace (c : Char) : Bool :=
  c == ' ' || c == '\t' || c == '\n' || c == '\r' || c == '\x0b' || c == '\x0c'

/-- Remove trailing `isPySpace` characters (Python `str.rstrip()`). -/
def pyStripRight (l : Str) : Str :=
  (l.reverse.dropWhile isPySpace).reverse

/-- Python `str.strip()`: remove leading and trailing whitespace. -/
def pyStrip (l : Str) : Str :=
  pyStripRight (l.dropWhile isPySpace)

/-- Python `str.split(sep)` for a single-character separator: the result is
always non-empty and splitting the empty string yields `[""]`. -/
def splitOnChar (sep : Char) : Str → List Str
  | [] => [[]]
  | c :: rest =>
    if c = sep then [] :: splitOnChar sep rest
    else
      match splitOnChar sep rest with
      | [] => [[c]]
      | g :: gs => (c :: g) :: gs

/-- `version_str.split(".")`. -/
def splitOnDot (l : Str) : List Str := splitOnChar '.' l

def isAsciiDigit (c : Char) : Bool := '0' ≤ c && c ≤ '9'

/-- Validity of the digit body accepted by Python `int(...)` after sign and
whitespace removal: non-empty, and underscores may only appear singly
between digits (so splitting on `_` yields only non-empty all-digit
groups). -/
def pyDigitsValid (l : Str) : Bool :=
  decide (l ≠ []) && (splitOnChar '_' l).all (fun g => decide (g ≠ []) && g.all isAsciiDigit)

/-- Numeric value of a digit body, skipping underscores. -/
def digitsToNat (l : Str) : Nat :=
  l.foldl (fun acc c => if isAsciiDigit c then acc * 10 + (c.toNat - '0'.toNat) else acc) 0

/-- Python `int(s)` on a string: strips surrounding whitespace, accepts an
optional `+`/`-` sign, then a non-empty digit string (underscores allowed
between digits).  `none` models a raised `ValueError`. -/
def pyInt (l : Str) : Option Int :=
  match pyStrip l with
  | [] => none
  | c :: rest =>
    let (neg, body) := if c = '-' then (true, rest)
                       else if c = '+' then (false, rest)
                       else (false, c :: rest)
    if pyDigitsValid body then
      some (if neg then -(digitsToNat body : Int) else (digitsToNat body : Int))
    else none

/-- Componentwise comparison of two equal-padded integer sequences, exactly
as the `for x, y in zip(pa, pb)` loop in `_cmp_semver`: first strict
difference decides, otherwise `0`. -/
def cmpLists : List Int → List Int → Int
  | x :: xs, y :: ys =>
    if x < y then -1 else if x > y then 1 else cmpLists xs ys
  | _, _ => 0

/-- `_cmp_semver(a, b)` from `installer.py`: parse both versions as
dot-separated Python integers, pad the shorter with zeros, compare
componentwise.  `none` models the `ValueError` raised by `int(x)` on an
unparsable component. -/
def _cmp_semver (a b : Str) : Option Int :=
  match (splitOnDot a).mapM pyInt, (splitOnDot b).mapM pyInt with
  | some pa, some pb =>
    let n := max pa.length pb.length
    some (cmpLists (pa ++ List.replicate (n - pa.length) 0)
                   (pb ++ List.replicate (n - pb.length) 0))
  | _, _ => none

/-- `_satisfies(version, constraint)` from `installer.py`.  `none` models a
propagated `ValueError` from `_cmp_semver`. -/
def _satisfies (version constraint : Str) : Option Bool :=
  if constraint = [] || constraint = ['*'] then some true
  else
    let c := pyStrip constraint
    if ['=', '='].isPrefixOf c then some (decide (version = c.drop 2))
    else if ['>', '='].isPrefixOf c then
      match _cmp_semver version (c.drop 2) with
      | some r => some (decide (0 ≤ r))
      | none => none
    else some (decide (version = c))

/-- `_parse_version_for_sort(version_str)` from `installer.py`: the key used
for version sorting; any parse failure falls back to `(0,)`. -/
def _parse_version_for_sort (v : Str) : List Int :=
  match (splitOnDot v).mapM pyInt with
  | some l => l
  | none => [0]

/-- Python tuple `<` on integer tuples: lexicographic, a proper prefix is
smaller. -/
def tupleLt : List Int → List Int → Bool
  | [], [] => false
  | [], _ :: _ => true
  | _ :: _, [] => false
  | x :: xs, y :: ys =>
    if x < y then true else if x > y then false else tupleLt xs ys

/-- The ordering used by `versions.sort(key=_parse_version_for_sort,
reverse=True)`: `a` may precede `b` iff `a`'s sort key is not less than
`b`'s (Python's sort is stable, so this non-strict relation together with a
stable insertion sort reproduces its output exactly). -/
def vKeyGe (a b : Str) : Prop :=
  tupleLt (_parse_version_for_sort a) (_parse_version_for_sort b) = false

instance : DecidableRel vKeyGe := fun a b =>
  inferInstanceAs (Decidable (_ = _))

/-- Python `max(items, key=_parse_version_for_sort)` on a list: the first
element whose key is maximal (later elements replace the champion only when
strictly greater).  `none` on the empty list (Python raises there; all call
sites guard with `if versions:`). -/
def pyMaxByVersionKey (l : List Str) : Option Str :=
  match l with
  | [] => none
  | x :: xs =>
    some (xs.foldl
      (fun best v =>
        if tupleLt (_parse_version_for_sort best) (_parse_version_for_sort v) then v else best)
      x)

/-! ### Python dicts as insertion-ordered association lists -/

/-- `d.get(k)` / `d[k]`-lookup. -/
def dGet [DecidableEq κ] (d : List (κ × α)) (k : κ) : Option α :=
  (d.find? (fun p => decide (p.1 = k))).map (·.2)

/-- `k in d`. -/
def dHas [DecidableEq κ] (d : List (κ × α)) (k : κ) : Bool :=
  (dGet d k).isSome

/-- `d[k] = v`: update in place if the key exists (Python dicts keep the
original position), otherwise append. -/
def dSet [DecidableEq κ] (d : List (κ × α)) (k : κ) (v : α) : List (κ × α) :=
  if dHas d k then d.map (fun p => if p.1 = k then (k, v) else p) else d ++ [(k, v)]

/-- `del d[k]`. -/
def dDel [DecidableEq κ] (d : List (κ × α)) (k : κ) : List (κ × α) :=
  d.filter (fun p => decide (p.1 ≠ k))

/-! ### Data model -/

/-- A plugin manifest (`manifest.json`): only the fields the orchestrator
reads.  A missing `manifest.json` is read as `{}`, i.e. all fields `none`
and no dependencies. -/
structure Manifest where
  mName : Option Str := none
  mVersion : Option Str := none
  mDescription : Option Str := none
  mAuthor : Option Str := none
  dependencies : List (Str × Str) := []
deriving DecidableEq, Repr

/-- A registry entry `{"version": v}`.  `version = none` models an entry
whose dict is empty (`{}`), which Python treats as falsy in
`_resolve_dependencies`. -/
structure RegEntry where
  version : Option Str
deriving DecidableEq, Repr

/-- A legacy remote-index entry `{"versions": [...], "latest": v}`. -/
structure IdxEntry where
  versions : List Str
  latest : Str
deriving DecidableEq, Repr

/-- A plugin directory on disk (local or on the legacy remote):
whether `plugin.py` exists, and the content of `manifest.json` if present. -/
structure PluginDir where
  hasPluginPy : Bool
  manifest : Option Manifest
deriving DecidableEq, Repr

/-- A plugin known to the API backend: its version list (as returned by
`get_plugin_details`) and the downloadable artifacts per version. -/
structure ApiPlugin where
  versions : List Str
  artifacts : List (Str × PluginDir)
deriving DecidableEq, Repr

/-- An uncaught Python exception. -/
inductive PyError where
  | runtimeError (msg : Str)
  | valueError
  | fileNotFoundError
  | apiError
deriving DecidableEq, Repr

/-- The whole mutable state an orchestrator operation can see or touch:
the two local JSON documents, the local plugin directories, the legacy
remote mirror, the API backend, and two observation logs (downloads
attempted, versions sent to the API on publish). -/
structure World where
  registry : List (Str × RegEntry)
  lockfile : List (Str × Option Str)
  localDirs : List (Str × PluginDir)
  remoteIndex : List (Str × IdxEntry)
  remoteFiles : List ((Str × Str) × PluginDir)
  apiUp : Bool
  apiPlugins : List (Str × ApiPlugin)
  fetchLog : List (Str × Str)
  apiPublishLog : List (Option Str)
deriving DecidableEq, Repr

/-- The map `{name: {"version": meta.get("version")} for name, meta in
registry.items()}` computed by `write_lockfile`. -/
def lockDerived (reg : List (Str × RegEntry)) : List (Str × Option Str) :=
  reg.map (fun p => (p.1, p.2.version))

/-- The manifest written by `_ensure_manifest(plugin_dir, name, version)`. -/
def autoManifest (name version : Str) : Manifest :=
  { mName := some name
    mVersion := some version
    mDescription := some ("Auto-generated manifest for ".data ++ name)
    mAuthor := some "unknown".data
    dependencies := [] }

/-! ### Orchestrator operations (`installer.py`) -/

def missingDepMsg (dn constraint : Str) : Str :=
  "Missing dependency: ".data ++ dn ++ " ".data ++ constraint

def versionConflictMsg (dn installedVer constraint : Str) : Str :=
  "Version conflict: ".data ++ dn ++ " installed ".data ++ installedVer
    ++ " does not satisfy ".data ++ constraint

/-- `"\n".join(conflicts)`. -/
def joinLines : List Str → Str
  | [] => []
  | [x] => x
  | x :: rest => x ++ '\n' :: joinLines rest

/-- The loop body of `_resolve_dependencies`: walk the declared
dependencies in order, collecting conflict messages; `none` models a
`ValueError` escaping from `_satisfies` (which aborts the loop). -/
def resolveDepsList (registry : List (Str × RegEntry)) :
    List (Str × Str) → Option (List Str)
  | [] => some []
  | (dn, constraint) :: rest =>
    match dGet registry dn with
    | none => (resolveDepsList registry rest).map (missingDepMsg dn constraint :: ·)
    | some e =>
      match e.version with
      | none =>
        -- `registry.get(dep_name)` returned an empty (falsy) dict
        (resolveDepsList registry rest).map (missingDepMsg dn constraint :: ·)
      | some installedVer =>
        match _satisfies installedVer constraint with
        | none => none
        | some true => resolveDepsList registry rest
        | some false =>
          (resolveDepsList registry rest).map
            (versionConflictMsg dn installedVer constraint :: ·)

/-- `_resolve_dependencies(manifest, registry)`: `some []` = returned
normally, `some (c :: cs)` = raised `RuntimeError` with the joined
conflicts, `none` = a `ValueError` escaped. -/
def _resolve_dependencies (m : Manifest) (registry : List (Str × RegEntry)) :
    Option (List Str) :=
  resolveDepsList registry m.dependencies

/-- `write_lockfile()`. -/
def write_lockfile (w : World) : Option PyError × World :=
  (none, { w with lockfile := lockDerived w.registry })

/-- `_download_from_remote(name, version)`: try the API download, fall back
to the legacy mirror.  Returns the Python boolean result plus the updated
world; every call is recorded in `fetchLog`. -/
def _download_from_remote (w : World) (name version : Str) : Bool × World :=
  let w := { w with fetchLog := w.fetchLog ++ [(name, version)] }
  let apiArtifact : Option PluginDir :=
    if w.apiUp then (dGet w.apiPlugins name).bind (fun p => dGet p.artifacts version)
    else none
  match apiArtifact with
  | some art =>
    -- zip extraction into the (possibly existing) local directory:
    -- extracted files overwrite, files absent from the zip survive
    let old := (dGet w.localDirs name).getD ⟨false, none⟩
    let merged : PluginDir :=
      ⟨old.hasPluginPy || art.hasPluginPy, art.manifest.orElse (fun _ => old.manifest)⟩
    (true, { w with localDirs := dSet w.localDirs name merged })
  | none =>
    match dGet w.remoteFiles (name, version) with
    | none => (false, w)
    | some remote =>
      if remote.hasPluginPy then
        let newManifest := remote.manifest.getD (autoManifest name version)
        (true, { w with localDirs := dSet w.localDirs name ⟨true, some newManifest⟩ })
      else (false, w)

/-- The shared tail of `install_plugin` / `update_plugin`: attempt the
remote download, and on failure of both backends synthesize the local
placeholder plugin (stub `plugin.py` plus `_ensure_manifest`). -/
def materialize (w : World) (name version : Str) : World :=
  let (downloaded, w1) := _download_from_remote w name version
  if downloaded then w1
  else { w1 with localDirs := dSet w1.localDirs name ⟨true, some (autoManifest name version)⟩ }

/-- `_read_json(f"{plugin_dir}/manifest.json", {})` as a `Manifest`. -/
def readLocalManifest (w : World) (name : Str) : Manifest :=
  ((dGet w.localDirs name).bind (·.manifest)).getD {}

/-- The shared final steps of `install_plugin` / `update_plugin`: read the
local manifest, validate dependencies against the registry, and on success
upsert the registry entry and regenerate the lockfile. -/
def validateAndCommit (w : World) (name version : Str) : Option PyError × World :=
  match _resolve_dependencies (readLocalManifest w name) w.registry with
  | none => (some .valueError, w)
  | some (c :: cs) => (some (.runtimeError (joinLines (c :: cs))), w)
  | some [] =>
    let reg' := dSet w.registry name ⟨some version⟩
    (none, { w with registry := reg', lockfile := lockDerived reg' })

/-- The version-resolution block at the top of `install_plugin` when no
version is given: API details first, legacy index on any API failure,
baseline `"0.1"` when neither knows the plugin or the list is empty. -/
def resolveInstallVersion (w : World) (name : Str) : Option Str → Str
  | some v => v
  | none =>
    if w.apiUp && dHas w.apiPlugins name then
      match ((dGet w.apiPlugins name).getD ⟨[], []⟩).versions with
      | [] => "0.1".data
      | v :: vs => (pyMaxByVersionKey (v :: vs)).getD "0.1".data
    else
      match dGet w.remoteIndex name with
      | some e =>
        match e.versions with
        | [] => "0.1".data
        | v :: vs => (pyMaxByVersionKey (v :: vs)).getD "0.1".data
      | none => "0.1".data

/-- `install_plugin(name, version=None)`. -/
def install_plugin (w : World) (name : Str) (versionOpt : Option Str) :
    Option PyError × World :=
  let version := resolveInstallVersion w name versionOpt
  validateAndCommit (materialize w name version) name version

/-- `uninstall_plugin(name)`: always returns normally. -/
def uninstall_plugin (w : World) (name : Str) : Option PyError × World :=
  let w1 := { w with localDirs := dDel w.localDirs name }
  let w2 := if dHas w1.registry name then { w1 with registry := dDel w1.registry name } else w1
  let w3 := if dHas w2.lockfile name then { w2 with lockfile := dDel w2.lockfile name } else w2
  (none, w3)

/-- Outcome of the target-version resolution inside `update_plugin` when no
target is given: early no-op return, propagated exception, or a resolved
version to proceed with. -/
inductive UpdRes where
  | noop
  | err (e : PyError)
  | go (version : Str)
deriving DecidableEq, Repr

/-- The legacy-index branch of `update_plugin`'s version resolution (also
reached when anything in the API branch raises). -/
def updateResolveLegacy (w : World) (name current : Str) : UpdRes :=
  match dGet w.remoteIndex name with
  | some e =>
    match e.versions with
    | [] => .noop
    | v :: vs =>
      let latest := ((pyMaxByVersionKey (v :: vs)).getD v)
      match _cmp_semver latest current with
      | some r => if 0 < r then .go latest else .noop
      | none => .err .valueError
  | none => .noop

/-- `update_plugin`'s no-target version resolution: API details inside
`try:` (any failure there, including a `ValueError` from `_cmp_semver`,
falls back to the legacy branch). -/
def updateResolve (w : World) (name current : Str) : UpdRes :=
  if w.apiUp && dHas w.apiPlugins name then
    match ((dGet w.apiPlugins name).getD ⟨[], []⟩).versions with
    | [] => .noop
    | v :: vs =>
      let latest := ((pyMaxByVersionKey (v :: vs)).getD v)
      match _cmp_semver latest current with
      | some r => if 0 < r then .go latest else .noop
      | none => updateResolveLegacy w name current
  else updateResolveLegacy w name current

/-- `update_plugin(name, target_version=None)`. -/
def update_plugin (w : World) (name : Str) (targetVersion : Option Str) :
    Option PyError × World :=
  match dGet w.registry name with
  | none => (some (.runtimeError ("Plugin not installed: ".data ++ name)), w)
  | some entry =>
    let current := entry.version.getD "0".data
    let res := match targetVersion with
      | some v => UpdRes.go v
      | none => updateResolve w name current
    match res with
    | .noop => (none, w)
    | .err e => (some e, w)
    | .go version =>
      if version = current then (none, w)
      else validateAndCommit (materialize w name version) name version

/-- Version normalization inside `PluginRegistryAPI.publish_plugin`
(`api_client.py`): zero-fill a 1- or 2-component version to 3 components.
The call site guards with `if version:`, reflected by the emptiness
check. -/
def pyNormalizeVersion (v : Str) : Str :=
  if v = [] then v
  else
    match splitOnDot v with
    | [a, b] => a ++ '.' :: b ++ ".0".data
    | [a] => a ++ ".0.0".data
    | _ => v

/-- A falsy-or-absent Python string option (`not x` on `None` or `""`). -/
def optFalsy : Option Str → Bool
  | none => true
  | some s => decide (s = [])

/-- `x if x else manifest.get(field)` for the metadata fields of
`PluginRegistryAPI.publish_plugin` (only applied when `manifest.json`
exists in the plugin directory). -/
def fillFromManifest (dir : PluginDir) (x : Option Str) (f : Manifest → Option Str) :
    Option Str :=
  match dir.manifest with
  | some m => if optFalsy x then f m else x
  | none => x

/-- `PluginRegistryAPI.publish_plugin`: fill a falsy version from the
manifest, normalize a truthy version, require `plugin.py`, then POST.  On
success the version form-field that was sent (normalized, omitted when
falsy) is appended to `apiPublishLog`.  The name/description/author form
fields go through the same fill logic in the source but carry no version
semantics, so only the version field is tracked here. -/
def api_publish_plugin (w : World) (dir : PluginDir) (version : Option Str) :
    Option PyError × World :=
  let version := fillFromManifest dir version (·.mVersion)
  let version := match version with
    | some s => if s = [] then some s else some (pyNormalizeVersion s)
    | none => none
  if !dir.hasPluginPy then (some .fileNotFoundError, w)
  else if w.apiUp then
    let sent := match version with
      | some s => if s = [] then none else some s
      | none => none
    (none, { w with apiPublishLog := w.apiPublishLog ++ [sent] })
  else (some .apiError, w)

/-- `publish_plugin(name, version=None)`: resolve the version from the
local manifest, try the API publish, and on any API failure fall back to
the legacy mirror (copy files, then update the index entry: insert the
version if absent, keep `versions` sorted descending by
`_parse_version_for_sort`, and point `latest` at `versions[0]`). -/
def publish_plugin (w : World) (name : Str) (versionOpt : Option Str) :
    Option PyError × World :=
  match dGet w.localDirs name with
  | none => (some (.runtimeError ("Plugin not found locally: ".data ++ name)), w)
  | some dir =>
    let m := dir.manifest.getD {}
    let version := versionOpt.getD (m.mVersion.getD "0.1".data)
    match api_publish_plugin w dir (some version) with
    | (none, w') => (none, w')
    | (some _, _) =>
      -- legacy fallback (the API failure is swallowed); the source creates
      -- the remote directory before checking for plugin.py, so on that
      -- error path an empty remote directory remains — not tracked here,
      -- since remoteFiles only records complete artifacts
      if !dir.hasPluginPy then
        (some (.runtimeError ("Plugin file not found".data)), w)
      else
        let w1 := { w with remoteFiles := dSet w.remoteFiles (name, version) dir }
        let entry := (dGet w1.remoteIndex name).getD ⟨[], version⟩
        let entry1 :=
          if decide (version ∈ entry.versions) then entry
          else { entry with
                 versions := (entry.versions ++ [version]).insertionSort vKeyGe }
        let entry2 := { entry1 with latest := entry1.versions.headD [] }
        (none, { w1 with remoteIndex := dSet w1.remoteIndex name entry2 })

end AFM

-- Concrete sanity checks of the string/version layer (against CPython).
example : AFM.pyInt "10".data = some 10 := by decide
example : AFM.pyInt "-1".data = some (-1) := by decide
example : AFM.pyInt " 1 ".data = some 1 := by decide
example : AFM.pyInt "1_0".data = some 10 := by decide
example : AFM.pyInt "_1".data = none := by decide
example : AFM.pyInt "1_".data = none := by decide
example : AFM.pyInt "a".data = none := by decide
example : AFM.pyInt "".data = none := by decide
example : AFM.pyInt " ".data = none := by decide
example : AFM._cmp_semver "1.0".data "1".data = some 0 := by decide
example : AFM._cmp_semver "1.2.0".data "1.0.0".data = some 1 := by decide
example : AFM._cmp_semver "1.-1".data "1.0".data = some (-1) := by decide
example : AFM._cmp_semver "1.x".data "1.0".data = none := by decide
example : AFM._satisfies "1.0.0".data ">=1.2.0".data = some false := by decide
example : AFM._satisfies "1.0".data "==1.0".data = some true := by decide
example : AFM._satisfies " ".data "== ".data = some false := by decide
example : AFM._satisfies "a".data ">=a".data = none := by decide
example : AFM._satisfies "1.0".data " 1.0".data = some true := by decide
example : AFM._satisfies "x".data " ".data = some false := by decide
example : AFM._satisfies "".data " ".data = some true := by decide
example : AFM._parse_version_for_sort "abc".data = [0] := by decide
example : AFM._parse_version_for_sort "1.2".data = [1, 2] := by decide
example : AFM.pyMaxByVersionKey ["1.0".data, "1.2".data, "0.9".data] = some "1.2".data := by
  decide

namespace AFM

/-- A first-run state: empty documents, no local plugins, empty legacy
mirror, API unreachable. -/
def emptyWorld : World :=
  { registry := []
    lockfile := []
    localDirs := []
    remoteIndex := []
    remoteFiles := []
    apiUp := false
    apiPlugins := []
    fetchLog := []
    apiPublishLog := [] }

end AFM

-- End-to-end sanity checks of the operational model.
-- Spec §8: Registry empty → Install("demo") with no remote data → Registry
-- becomes {demo: "0.1"}, stub plugin + generated manifest, Lockfile mirrors.
example :
    (AFM.install_plugin AFM.emptyWorld "demo".data none).1 = none ∧
    (AFM.install_plugin AFM.emptyWorld "demo".data none).2.registry
      = [("demo".data, ⟨some "0.1".data⟩)] ∧
    (AFM.install_plugin AFM.emptyWorld "demo".data none).2.lockfile
      = [("demo".data, some "0.1".data)] := by decide

-- Uninstall on an absent plugin is a no-op success.
example : AFM.uninstall_plugin AFM.emptyWorld "bar".data = (none, AFM.emptyWorld) := by
  decide

-- update_plugin fails when the plugin is not installed.
example : (AFM.update_plugin AFM.emptyWorld "foo".data none).1
    = some (.runtimeError ("Plugin not installed: foo".data)) := by decide

namespace AFM

/-! ### Association-list (Python dict) lemmas -/

theorem dGet_nil [DecidableEq κ] (k : κ) : dGet ([] : List (κ × α)) k = none := rfl

theorem dGet_cons [DecidableEq κ] (p : κ × α) (d : List (κ × α)) (k : κ) :
    dGet (p :: d) k = if p.1 = k then some p.2 else dGet d k := by
  by_cases h : p.1 = k <;> simp [dGet, List.find?, h]

theorem dGet_dSet_self [DecidableEq κ] (d : List (κ × α)) (k : κ) (v : α) :
    dGet (dSet d k v) k = some v := by
  unfold dSet
  by_cases h : dHas d k = true
  · simp only [h, if_true]
    induction d with
    | nil => simp [dHas, dGet] at h
    | cons p rest ih =>
      by_cases hp : p.1 = k
      · simp [dGet_cons, hp]
      · have hrest : dHas rest k = true := by
          simpa [dHas, dGet_cons, hp] using h
        simpa [dGet_cons, hp] using ih hrest
  · simp only [h, if_false, Bool.false_eq_true]
    induction d with
    | nil => simp [dGet_cons]
    | cons p rest ih =>
      have hp : ¬ p.1 = k := by
        intro hk
        simp [dHas, dGet_cons, hk] at h
      have hrest : ¬ dHas rest k = true := by
        simpa [dHas, dGet_cons, hp] using h
      simpa [dGet_cons, hp] using ih hrest

theorem dHas_of_dGet_eq_some [DecidableEq κ] {d : List (κ × α)} {k : κ} {v : α}
    (h : dGet d k = some v) : dHas d k = true := by
  simp [dHas, h]

theorem dDel_of_not_has [DecidableEq κ] {d : List (κ × α)} {k : κ}
    (h : ¬ dHas d k = true) : dDel d k = d := by
  induction d with
  | nil => rfl
  | cons p rest ih =>
    have hp : ¬ p.1 = k := by
      intro hk
      exact h (by simp [dHas, dGet_cons, hk])
    have hrest : ¬ dHas rest k = true := by
      intro hr
      exact h (by simp [dHas, dGet_cons, hp]; simpa [dHas] using hr)
    have h2 := ih hrest
    simp only [dDel, List.filter_cons] at h2 ⊢
    rw [if_pos (by simp [hp])]
    rw [h2]

/-! ### Lockfile-derivation lemmas -/

theorem dGet_lockDerived (reg : List (Str × RegEntry)) (k : Str) :
    dGet (lockDerived reg) k = (dGet reg k).map RegEntry.version := by
  induction reg with
  | nil => rfl
  | cons p rest ih =>
    by_cases hp : p.1 = k <;> simp [lockDerived, dGet_cons, hp] at ih ⊢ <;> exact ih

theorem dHas_lockDerived (reg : List (Str × RegEntry)) (k : Str) :
    dHas (lockDerived reg) k = dHas reg k := by
  simp [dHas, dGet_lockDerived]

theorem lockDerived_dDel (reg : List (Str × RegEntry)) (k : Str) :
    lockDerived (dDel reg k) = dDel (lockDerived reg) k := by
  induction reg with
  | nil => rfl
  | cons p rest ih =>
    by_cases hp : p.1 = k <;> simp [lockDerived, dDel, List.filter, hp] at ih ⊢ <;> exact ih

/-! ### `pyStrip` lemmas -/

theorem dropWhile_eq_self_of_none {p : Char → Bool} {l : Str}
    (h : ∀ c ∈ l, p c = false) : l.dropWhile p = l := by
  cases l with
  | nil => rfl
  | cons c rest => simp [List.dropWhile, h c (by simp)]

theorem pyStripRight_of_no_space {l : Str} (h : ∀ c ∈ l, isPySpace c = false) :
    pyStripRight l = l := by
  unfold pyStripRight
  rw [dropWhile_eq_self_of_none (fun c hc => h c (List.mem_reverse.mp hc)), List.reverse_reverse]

theorem pyStrip_of_no_space {l : Str} (h : ∀ c ∈ l, isPySpace c = false) :
    pyStrip l = l := by
  unfold pyStrip
  rw [dropWhile_eq_self_of_none h, pyStripRight_of_no_space h]

theorem dropWhile_eq_nil_of_all {p : Char → Bool} :
    ∀ (l : Str), (∀ c ∈ l, p c = true) → l.dropWhile p = []
  | [], _ => rfl
  | c :: rest, h => by
    rw [List.dropWhile_cons]
    simp only [h c (by simp), if_true]
    exact dropWhile_eq_nil_of_all rest (fun x hx => h x (by simp [hx]))

theorem pyStrip_of_all_space {l : Str} (h : ∀ c ∈ l, isPySpace c = true) :
    pyStrip l = [] := by
  unfold pyStrip
  rw [dropWhile_eq_nil_of_all l h]
  rfl

theorem length_dropWhile_le (p : Char → Bool) :
    ∀ (l : Str), (l.dropWhile p).length ≤ l.length
  | [] => Nat.le_refl 0
  | c :: rest => by
    rw [List.dropWhile_cons]
    by_cases hc : p c = true
    · simp only [hc, if_true]
      exact Nat.le_trans (length_dropWhile_le p rest) (Nat.le_succ _)
    · simp [hc]

theorem pyStripRight_append {a b : Str} (hb : pyStripRight b = b) (hbne : b ≠ []) :
    pyStripRight (a ++ b) = a ++ b := by
  have hrev : b.reverse.dropWhile isPySpace = b.reverse := by
    have h1 := congrArg List.reverse hb
    unfold pyStripRight at h1
    simpa using h1
  obtain ⟨c, t, hct⟩ : ∃ c t, b.reverse = c :: t := by
    cases hb' : b.reverse with
    | nil => exact absurd (by simpa using congrArg List.reverse hb') hbne
    | cons c t => exact ⟨c, t, rfl⟩
  have hc : isPySpace c = false := by
    cases hcv : isPySpace c with
    | false => rfl
    | true =>
      rw [hct] at hrev
      rw [List.dropWhile_cons] at hrev
      simp only [hcv, if_true] at hrev
      have h1 := length_dropWhile_le isPySpace t
      have h2 := congrArg List.length hrev
      simp at h2
      omega
  have hkey : ((a ++ b).reverse).dropWhile isPySpace = (a ++ b).reverse := by
    rw [List.reverse_append, hct, List.cons_append, List.dropWhile_cons]
    simp [hc]
  unfold pyStripRight
  rw [hkey, List.reverse_reverse]

/-! ### `splitOnChar` lemmas -/

theorem splitOnChar_ne_nil (sep : Char) : ∀ (l : Str), splitOnChar sep l ≠ []
  | [] => by simp [splitOnChar]
  | c :: rest => by
    unfold splitOnChar
    by_cases h : c = sep
    · simp [h]
    · simp only [h, if_false]
      cases splitOnChar sep rest <;> simp

theorem splitOnChar_of_no_sep {sep : Char} :
    ∀ {l : Str}, (∀ c ∈ l, ¬ c = sep) → splitOnChar sep l = [l]
  | [], _ => rfl
  | c :: rest, h => by
    unfold splitOnChar
    rw [if_neg (h c (by simp)), splitOnChar_of_no_sep (fun x hx => h x (by simp [hx]))]

/-- `sep.join(groups)`: the inverse of `splitOnChar` used to reason about
`"{a}.{b}.0"`-style recombination. -/
def joinChar (sep : Char) : List Str → Str
  | [] => []
  | [g] => g
  | g :: g' :: gs => g ++ sep :: joinChar sep (g' :: gs)

theorem joinChar_splitOnChar (sep : Char) : ∀ (l : Str), joinChar sep (splitOnChar sep l) = l
  | [] => rfl
  | c :: rest => by
    have ih := joinChar_splitOnChar sep rest
    unfold splitOnChar
    by_cases h : c = sep
    · simp only [h, if_true]
      obtain ⟨g, gs, hsplit⟩ : ∃ g gs, splitOnChar sep rest = g :: gs := by
        cases hs : splitOnChar sep rest with
        | nil => exact absurd hs (splitOnChar_ne_nil sep rest)
        | cons g gs => exact ⟨g, gs, rfl⟩
      rw [hsplit]
      rw [hsplit] at ih
      show ([] : Str) ++ sep :: joinChar sep (g :: gs) = sep :: rest
      simp [ih]
    · simp only [h, if_false]
      obtain ⟨g, gs, hsplit⟩ : ∃ g gs, splitOnChar sep rest = g :: gs := by
        cases hs : splitOnChar sep rest with
        | nil => exact absurd hs (splitOnChar_ne_nil sep rest)
        | cons g gs => exact ⟨g, gs, rfl⟩
      rw [hsplit]
      rw [hsplit] at ih
      cases gs with
      | nil => show c :: g = c :: rest; simpa using ih
      | cons g' gs' =>
        show (c :: g) ++ sep :: joinChar sep (g' :: gs') = c :: rest
        simpa using ih

theorem mem_split_of_mem (sep : Char) :
    ∀ {l : Str} {c : Char}, c ∈ l → c = sep ∨ ∃ g ∈ splitOnChar sep l, c ∈ g := by
  intro l
  induction l with
  | nil => intro c hc; simp at hc
  | cons x rest ih =>
    intro c hc
    unfold splitOnChar
    by_cases hx : x = sep
    · simp only [hx, if_true]
      rcases List.mem_cons.mp hc with rfl | hmem
      · exact Or.inl hx
      · rcases ih hmem with h1 | ⟨g, hg, hcg⟩
        · exact Or.inl h1
        · exact Or.inr ⟨g, by simp [hg], hcg⟩
    · simp only [hx, if_false]
      obtain ⟨g, gs, hsplit⟩ : ∃ g gs, splitOnChar sep rest = g :: gs := by
        cases hs : splitOnChar sep rest with
        | nil => exact absurd hs (splitOnChar_ne_nil sep rest)
        | cons g gs => exact ⟨g, gs, rfl⟩
      rw [hsplit]
      rcases List.mem_cons.mp hc with rfl | hmem
      · exact Or.inr ⟨c :: g, by simp, by simp⟩
      · rcases ih hmem with h1 | ⟨g', hg', hcg'⟩
        · exact Or.inl h1
        · rw [hsplit] at hg'
          rcases List.mem_cons.mp hg' with rfl | hg''
          · exact Or.inr ⟨x :: g', by simp, by simp [hcg']⟩
          · exact Or.inr ⟨g', by simp [hg''], hcg'⟩

/-! ### Digit-character and clean-version lemmas -/

/-- A "clean" dotted numeric version: every dot-component is a non-empty
string of ASCII digits (so no signs, no whitespace, no underscores). -/
def cleanVersion (v : Str) : Prop :=
  ∀ g ∈ splitOnDot v, g ≠ [] ∧ ∀ c ∈ g, isAsciiDigit c = true

instance : DecidablePred cleanVersion := fun v =>
  inferInstanceAs (Decidable (∀ g ∈ splitOnDot v, _ ∧ _))

theorem ne_of_digit {c d : Char} (h : isAsciiDigit c = true)
    (hd : isAsciiDigit d = false) : ¬ c = d := by
  intro he
  rw [he, hd] at h
  exact absurd h (by simp)

theorem digit_not_space {c : Char} (h : isAsciiDigit c = true) : isPySpace c = false := by
  have h1 : ¬ c = ' ' := ne_of_digit h (by decide)
  have h2 : ¬ c = '\t' := ne_of_digit h (by decide)
  have h3 : ¬ c = '\n' := ne_of_digit h (by decide)
  have h4 : ¬ c = '\r' := ne_of_digit h (by decide)
  have h5 : ¬ c = '\x0b' := ne_of_digit h (by decide)
  have h6 : ¬ c = '\x0c' := ne_of_digit h (by decide)
  simp [isPySpace, h1, h2, h3, h4, h5, h6]

theorem clean_no_space {v : Str} (h : cleanVersion v) :
    ∀ c ∈ v, isPySpace c = false := by
  intro c hc
  rcases mem_split_of_mem '.' hc with rfl | ⟨g, hg, hcg⟩
  · decide
  · exact digit_not_space ((h g hg).2 c hcg)

theorem pyInt_of_digits {g : Str} (hne : g ≠ []) (hd : ∀ c ∈ g, isAsciiDigit c = true) :
    pyInt g = some ((digitsToNat g : Nat) : Int) := by
  obtain ⟨c, rest, rfl⟩ : ∃ c rest, g = c :: rest := by
    cases g with
    | nil => exact absurd rfl hne
    | cons c rest => exact ⟨c, rest, rfl⟩
  have hc : isAsciiDigit c = true := hd c (by simp)
  have hstrip : pyStrip (c :: rest) = c :: rest :=
    pyStrip_of_no_space (fun x hx => digit_not_space (hd x hx))
  have hdash : ¬ c = '-' := ne_of_digit hc (by decide)
  have hplus : ¬ c = '+' := ne_of_digit hc (by decide)
  have hvalid : pyDigitsValid (c :: rest) = true := by
    have hsplit : splitOnChar '_' (c :: rest) = [c :: rest] :=
      splitOnChar_of_no_sep (fun x hx => ne_of_digit (hd x hx) (by decide))
    simp [pyDigitsValid, hsplit, hc]
    exact fun x hx => hd x (List.mem_cons_of_mem c hx)
  unfold pyInt
  rw [hstrip]
  simp [hdash, hplus, hvalid]

theorem mapM_pyInt_of_clean :
    ∀ (gs : List Str), (∀ g ∈ gs, g ≠ [] ∧ ∀ c ∈ g, isAsciiDigit c = true) →
      gs.mapM pyInt = some (gs.map (fun g => ((digitsToNat g : Nat) : Int)))
  | [], _ => rfl
  | g :: gs, h => by
    have hg := h g (by simp)
    have ih := mapM_pyInt_of_clean gs (fun x hx => h x (by simp [hx]))
    rw [List.mapM_cons, pyInt_of_digits hg.1 hg.2, ih]
    rfl

theorem clean_parse {v : Str} (h : cleanVersion v) :
    (splitOnDot v).mapM pyInt
      = some ((splitOnDot v).map (fun g => ((digitsToNat g : Nat) : Int))) :=
  mapM_pyInt_of_clean (splitOnDot v) h

theorem clean_key {v : Str} (h : cleanVersion v) :
    _parse_version_for_sort v
      = (splitOnDot v).map (fun g => ((digitsToNat g : Nat) : Int)) := by
  unfold _parse_version_for_sort
  rw [clean_parse h]

theorem clean_key_nonneg {v : Str} (h : cleanVersion v) :
    ∀ x ∈ _parse_version_for_sort v, 0 ≤ x := by
  rw [clean_key h]
  intro x hx
  rcases List.mem_map.mp hx with ⟨g, _, rfl⟩
  exact Int.ofNat_nonneg _

/-! ### `cmpLists` / `tupleLt` order lemmas -/

theorem cmpLists_self : ∀ (p : List Int), cmpLists p p = 0
  | [] => rfl
  | x :: xs => by
    unfold cmpLists
    simp [lt_irrefl, cmpLists_self xs]

theorem cmp_semver_self_of_parse {v : Str} {p : List Int}
    (h : (splitOnDot v).mapM pyInt = some p) : _cmp_semver v v = some 0 := by
  unfold _cmp_semver
  rw [h]
  simp [cmpLists_self]

theorem tupleLt_irrefl : ∀ (p : List Int), tupleLt p p = false
  | [] => rfl
  | x :: xs => by
    unfold tupleLt
    simp [lt_irrefl, tupleLt_irrefl xs]

theorem tupleLt_cons (a b : Int) (xs ys : List Int) :
    tupleLt (a :: xs) (b :: ys)
      = if a < b then true else if a > b then false else tupleLt xs ys := rfl

theorem tupleLt_cons_iff {a b : Int} {xs ys : List Int} :
    tupleLt (a :: xs) (b :: ys) = true ↔ a < b ∨ (a = b ∧ tupleLt xs ys = true) := by
  rw [tupleLt_cons]
  by_cases hab : a < b
  · simp [hab]
  · by_cases hba : a > b
    · rw [if_neg hab, if_pos hba]
      constructor
      · intro h; exact absurd h (by simp)
      · rintro (h | ⟨rfl, h⟩)
        · exact absurd h hab
        · exact absurd hba (lt_irrefl a)
    · have heq : a = b := le_antisymm (not_lt.mp hba) (not_lt.mp hab)
      subst heq
      rw [if_neg hab, if_neg hba]
      simp

theorem tupleLt_trans :
    ∀ {x y z : List Int}, tupleLt x y = true → tupleLt y z = true → tupleLt x z = true
  | [], b :: ys, c :: zs, _, _ => rfl
  | [], [], _, h1, _ => by simp [tupleLt] at h1
  | [], b :: ys, [], _, h2 => by simp [tupleLt] at h2
  | a :: xs, [], _, h1, _ => by simp [tupleLt] at h1
  | a :: xs, b :: ys, [], _, h2 => by simp [tupleLt] at h2
  | a :: xs, b :: ys, c :: zs, h1, h2 => by
    rw [tupleLt_cons_iff] at h1 h2 ⊢
    rcases h1 with h1 | ⟨rfl, h1⟩
    · rcases h2 with h2 | ⟨rfl, h2⟩
      · exact Or.inl (lt_trans h1 h2)
      · exact Or.inl h1
    · rcases h2 with h2 | ⟨rfl, h2⟩
      · exact Or.inl h2
      · exact Or.inr ⟨rfl, tupleLt_trans h1 h2⟩

theorem tupleLt_trichotomy :
    ∀ (x y : List Int), tupleLt x y = true ∨ x = y ∨ tupleLt y x = true
  | [], [] => Or.inr (Or.inl rfl)
  | [], b :: ys => Or.inl rfl
  | a :: xs, [] => Or.inr (Or.inr rfl)
  | a :: xs, b :: ys => by
    by_cases hab : a < b
    · exact Or.inl (tupleLt_cons_iff.mpr (Or.inl hab))
    · by_cases hba : b < a
      · exact Or.inr (Or.inr (tupleLt_cons_iff.mpr (Or.inl hba)))
      · have heq : a = b := le_antisymm (not_lt.mp hba) (not_lt.mp hab)
        subst heq
        rcases tupleLt_trichotomy xs ys with h | h | h
        · exact Or.inl (tupleLt_cons_iff.mpr (Or.inr ⟨rfl, h⟩))
        · exact Or.inr (Or.inl (by rw [h]))
        · exact Or.inr (Or.inr (tupleLt_cons_iff.mpr (Or.inr ⟨rfl, h⟩)))

theorem tupleLt_asymm {x y : List Int} (h : tupleLt x y = true) : tupleLt y x = false := by
  cases hv : tupleLt y x with
  | false => rfl
  | true =>
    have := tupleLt_trans h hv
    rw [tupleLt_irrefl] at this
    exact absurd this (by simp)

theorem tupleLt_false_trans {x y z : List Int}
    (h1 : tupleLt x y = false) (h2 : tupleLt y z = false) : tupleLt x z = false := by
  cases hv : tupleLt x z with
  | false => rfl
  | true =>
    rcases tupleLt_trichotomy x y with ha | ha | ha
    · rw [ha] at h1; exact absurd h1 (by simp)
    · subst ha; rw [hv] at h2; exact absurd h2 (by simp)
    · have := tupleLt_trans ha hv
      rw [this] at h2
      exact absurd h2 (by simp)

instance : IsTotal Str vKeyGe where
  total := by
    intro a b
    unfold vKeyGe
    rcases tupleLt_trichotomy (_parse_version_for_sort a) (_parse_version_for_sort b)
      with h | h | h
    · exact Or.inr (tupleLt_asymm h)
    · exact Or.inl (by rw [h, tupleLt_irrefl])
    · exact Or.inl (tupleLt_asymm h)

instance : IsTrans Str vKeyGe where
  trans := by
    intro a b c h1 h2
    exact tupleLt_false_trans h1 h2

/-! ### Spec-side description of dependency validation (for C3) -/

/-- The violation list the spec describes: one entry per declared dependency
that is missing (or has a falsy registry entry) or whose installed version
does not satisfy its constraint.  This is the claim-side enumeration, to be
compared with the code-side `_resolve_dependencies`. -/
def specViolations (m : Manifest) (registry : List (Str × RegEntry)) : List Str :=
  m.dependencies.filterMap (fun p =>
    match dGet registry p.1 with
    | none => some (missingDepMsg p.1 p.2)
    | some e =>
      match e.version with
      | none => some (missingDepMsg p.1 p.2)
      | some v =>
        match _satisfies v p.2 with
        | some true => none
        | _ => some (versionConflictMsg p.1 v p.2))

/-- True when no constraint evaluation in the validation loop raises a
`ValueError` (i.e. `_satisfies` is defined on every checked pair). -/
def depsEvalTotalB (m : Manifest) (registry : List (Str × RegEntry)) : Bool :=
  m.dependencies.all (fun p =>
    match dGet registry p.1 with
    | none => true
    | some e =>
      match e.version with
      | none => true
      | some v => decide (_satisfies v p.2 ≠ none))

/-- True when at least one declared dependency is missing, has a falsy
registry entry, or does not (provably) satisfy its constraint. -/
def depViolatedB (m : Manifest) (registry : List (Str × RegEntry)) : Bool :=
  m.dependencies.any (fun p =>
    match dGet registry p.1 with
    | none => true
    | some e =>
      match e.version with
      | none => true
      | some v => decide (_satisfies v p.2 ≠ some true))

theorem resolveDepsList_eq_filterMap (registry : List (Str × RegEntry)) :
    ∀ (deps : List (Str × Str)),
      (deps.all (fun p =>
        match dGet registry p.1 with
        | none => true
        | some e =>
          match e.version with
          | none => true
          | some v => decide (_satisfies v p.2 ≠ none)) = true) →
      resolveDepsList registry deps
        = some (deps.filterMap (fun p =>
            match dGet registry p.1 with
            | none => some (missingDepMsg p.1 p.2)
            | some e =>
              match e.version with
              | none => some (missingDepMsg p.1 p.2)
              | some v =>
                match _satisfies v p.2 with
                | some true => none
                | _ => some (versionConflictMsg p.1 v p.2)))
  | [], _ => rfl
  | (dn, c) :: rest, h => by
    rw [List.all_cons, Bool.and_eq_true] at h
    have ih := resolveDepsList_eq_filterMap registry rest h.2
    unfold resolveDepsList
    rw [List.filterMap_cons]
    cases hg : dGet registry dn with
    | none => simp [hg, ih]
    | some e =>
      cases he : e.version with
      | none => simp [hg, he, ih]
      | some v =>
        have h1 := h.1
        simp only [hg, he] at h1
        cases hs : _satisfies v c with
        | none => exact absurd hs (by simpa using h1)
        | some b =>
          cases b with
          | true => simp [hg, he, hs, ih]
          | false => simp [hg, he, hs, ih]

theorem resolveDepsList_ne_nil_of_violated (registry : List (Str × RegEntry)) :
    ∀ (deps : List (Str × Str)),
      (deps.any (fun p =>
        match dGet registry p.1 with
        | none => true
        | some e =>
          match e.version with
          | none => true
          | some v => decide (_satisfies v p.2 ≠ some true)) = true) →
      resolveDepsList registry deps ≠ some []
  | [], h => by simp at h
  | (dn, c) :: rest, h => by
    rw [List.any_cons, Bool.or_eq_true] at h
    unfold resolveDepsList
    cases hg : dGet registry dn with
    | none =>
      simp only [hg]
      cases hr : resolveDepsList registry rest <;> simp [hr]
    | some e =>
      cases he : e.version with
      | none =>
        simp only [hg, he]
        cases hr : resolveDepsList registry rest <;> simp [hr]
      | some v =>
        cases hs : _satisfies v c with
        | none => simp [hg, he, hs]
        | some b =>
          cases b with
          | false =>
            simp only [hg, he, hs]
            cases hr : resolveDepsList registry rest <;> simp [hr]
          | true =>
            rcases h with h1 | h2
            · simp only [hg, he, hs] at h1
              simp at h1
            · simp only [hg, he, hs]
              exact resolveDepsList_ne_nil_of_violated registry rest h2

theorem resolveDeps_ne_nil_of_violated {m : Manifest} {registry : List (Str × RegEntry)}
    (h : depViolatedB m registry = true) :
    _resolve_dependencies m registry ≠ some [] :=
  resolveDepsList_ne_nil_of_violated registry m.dependencies h

end AFM

namespace AFM

/-- C10: for every version `v` and every non-empty constraint made solely of
whitespace characters, `_satisfies` returns true iff `v` is the empty
string — whitespace-only constraints are not the always-true wildcard;
they collapse to an exact match against `""` because stripping happens
after the emptiness check. -/
theorem C10_whitespace_constraint (v c : Str) (hne : c ≠ [])
    (hws : ∀ ch ∈ c, isPySpace ch = true) :
    _satisfies v c = some true ↔ v = [] := by
  have hstar : ¬ c = ['*'] := by
    intro h
    subst h
    exact absurd (hws '*' (by simp)) (by decide)
  have hstrip : pyStrip c = [] := pyStrip_of_all_space hws
  simp [_satisfies, hne, hstar, hstrip, List.isPrefixOf]

/-- C10 witness: `_satisfies "" " " = some true` and
`_satisfies "x" " " ≠ some true`, by the theorem at those inputs. -/
theorem C10_whitespace_constraint_witness :
    (_satisfies [] [' '] = some true ↔ ([] : Str) = []) ∧
    (_satisfies ['x'] [' '] = some true ↔ (['x'] : Str) = []) :=
  ⟨C10_whitespace_constraint [] [' '] (by decide) (by decide),
   C10_whitespace_constraint ['x'] [' '] (by decide) (by decide)⟩

/-- C7 counterexample: the component `"-1"` is not a non-negative integer,
yet `_cmp_semver "1.-1" "1.0"` does not fail with a parse error — it
returns an ordering, because Python `int()` accepts a sign. -/
theorem C7_counterexample :
    _cmp_semver "1.-1".data "1.0".data = some (-1) ∧ pyInt "-1".data = some (-1) := by
  decide

/-- C7 (amended): the Version Comparator fails with a parse error exactly
when a dot-separated component of either input fails Python integer
parsing (signed integers are accepted, so negative components do not
fail); the sorting helper `_parse_version_for_sort` never fails — it maps
any unparsable version string to `[0]` and any parsable one to its
component list. -/
theorem C7_parse_error_behavior :
    (∀ a b : Str, _cmp_semver a b = none ↔
      ((splitOnDot a).mapM pyInt = none ∨ (splitOnDot b).mapM pyInt = none)) ∧
    (∀ v : Str, (splitOnDot v).mapM pyInt = none → _parse_version_for_sort v = [0]) ∧
    (∀ (v : Str) (p : List Int),
      (splitOnDot v).mapM pyInt = some p → _parse_version_for_sort v = p) := by
  refine ⟨?_, ?_, ?_⟩
  · intro a b
    unfold _cmp_semver
    cases ha : (splitOnDot a).mapM pyInt <;> cases hb : (splitOnDot b).mapM pyInt <;> simp
  · intro v h
    unfold _parse_version_for_sort
    rw [h]
  · intro v p h
    unfold _parse_version_for_sort
    rw [h]

/-- C7 witness: the sort helper at an unparsable and at a parsable input,
via the amended theorem. -/
theorem C7_parse_error_witness :
    _parse_version_for_sort "abc".data = [0] ∧ _parse_version_for_sort "1.2".data = [1, 2] :=
  ⟨C7_parse_error_behavior.2.1 "abc".data (by decide),
   C7_parse_error_behavior.2.2 "1.2".data [1, 2] (by decide)⟩

/-- C3 counterexample: manifest dependencies `{a: ">=1", b: "*"}` against
registry `{a: {"version": "x"}}` — dependency `b` is missing, but
validation raises a `ValueError` while checking `a` (unparsable installed
version under `>=`), so the failure enumerates no violations at all,
contradicting "the resulting failure enumerates all such violations". -/
theorem C3_counterexample :
    _resolve_dependencies
        { dependencies := [("a".data, ">=1".data), ("b".data, "*".data)] }
        [("a".data, ⟨some "x".data⟩)] = none ∧
    dGet [("a".data, (⟨some "x".data⟩ : RegEntry))] "b".data = none := by
  decide

/-- C3 (amended): provided no constraint evaluation raises a version-parse
error, `_resolve_dependencies` collects exactly one violation per missing
or unsatisfied dependency (in declaration order, never stopping at the
first), and it succeeds iff that list is empty. -/
theorem C3_dependency_aggregation (m : Manifest) (registry : List (Str × RegEntry))
    (h : depsEvalTotalB m registry = true) :
    _resolve_dependencies m registry = some (specViolations m registry) ∧
    (_resolve_dependencies m registry = some [] ↔ specViolations m registry = []) := by
  have h1 : _resolve_dependencies m registry = some (specViolations m registry) :=
    resolveDepsList_eq_filterMap registry m.dependencies h
  refine ⟨h1, ?_⟩
  rw [h1]
  simp

/-- C3 witness: a manifest with two unsatisfied dependencies produces both
violations, via the amended theorem. -/
theorem C3_dependency_aggregation_witness :
    _resolve_dependencies
        { dependencies := [("x".data, "*".data), ("y".data, "==2.0".data)] }
        [("y".data, ⟨some "1.0".data⟩)]
      = some (specViolations
        { dependencies := [("x".data, "*".data), ("y".data, "==2.0".data)] }
        [("y".data, ⟨some "1.0".data⟩)]) ∧
    (_resolve_dependencies
        { dependencies := [("x".data, "*".data), ("y".data, "==2.0".data)] }
        [("y".data, ⟨some "1.0".data⟩)] = some [] ↔
      specViolations
        { dependencies := [("x".data, "*".data), ("y".data, "==2.0".data)] }
        [("y".data, ⟨some "1.0".data⟩)] = []) :=
  C3_dependency_aggregation
    { dependencies := [("x".data, "*".data), ("y".data, "==2.0".data)] }
    [("y".data, ⟨some "1.0".data⟩)] (by decide)

/-! ### Frame lemmas for download / materialize -/

theorem download_preserves (w : World) (n v : Str) :
    (_download_from_remote w n v).2.registry = w.registry ∧
    (_download_from_remote w n v).2.lockfile = w.lockfile ∧
    (_download_from_remote w n v).2.remoteIndex = w.remoteIndex := by
  unfold _download_from_remote
  dsimp only
  split
  · exact ⟨rfl, rfl, rfl⟩
  · split
    · exact ⟨rfl, rfl, rfl⟩
    · split
      · exact ⟨rfl, rfl, rfl⟩
      · exact ⟨rfl, rfl, rfl⟩

theorem materialize_preserves (w : World) (n v : Str) :
    (materialize w n v).registry = w.registry ∧
    (materialize w n v).lockfile = w.lockfile ∧
    (materialize w n v).remoteIndex = w.remoteIndex := by
  unfold materialize
  have h := download_preserves w n v
  cases hd : _download_from_remote w n v with
  | mk downloaded w1 =>
    rw [hd] at h
    cases downloaded with
    | true => exact h
    | false => exact h

/-- C4: whenever the materialized plugin's manifest has at least one
dependency violation against the current Registry, `install_plugin` fails
and leaves the Registry and Lockfile documents exactly as they were (only
the local plugin directory may have changed). -/
theorem C4_install_violation_preserves_state
    (w : World) (name : Str) (versionOpt : Option Str)
    (h : depViolatedB
          (readLocalManifest
            (materialize w name (resolveInstallVersion w name versionOpt)) name)
          w.registry = true) :
    (install_plugin w name versionOpt).1 ≠ none ∧
    (install_plugin w name versionOpt).2.registry = w.registry ∧
    (install_plugin w name versionOpt).2.lockfile = w.lockfile := by
  have hpres := materialize_preserves w name (resolveInstallVersion w name versionOpt)
  have hne : _resolve_dependencies
      (readLocalManifest
        (materialize w name (resolveInstallVersion w name versionOpt)) name)
      w.registry ≠ some [] :=
    resolveDeps_ne_nil_of_violated h
  unfold install_plugin validateAndCommit
  dsimp only
  rw [hpres.1]
  cases hr : _resolve_dependencies
      (readLocalManifest
        (materialize w name (resolveInstallVersion w name versionOpt)) name)
      w.registry with
  | none => simp [hr, hpres.1, hpres.2.1]
  | some l =>
    cases l with
    | nil => exact absurd hr hne
    | cons c cs => simp [hr, hpres.1, hpres.2.1]

/-- C4 witness: installing a plugin whose fetched manifest declares an
unsatisfied dependency fails and leaves Registry/Lockfile empty. -/
theorem C4_install_violation_witness :
    (install_plugin
        { emptyWorld with
          remoteFiles := [(("p".data, "1.0".data),
            ⟨true, some { mVersion := some "1.0".data
                          dependencies := [("x".data, "*".data)] }⟩)] }
        "p".data (some "1.0".data)).1 ≠ none ∧
    (install_plugin
        { emptyWorld with
          remoteFiles := [(("p".data, "1.0".data),
            ⟨true, some { mVersion := some "1.0".data
                          dependencies := [("x".data, "*".data)] }⟩)] }
        "p".data (some "1.0".data)).2.registry
      = ({ emptyWorld with
          remoteFiles := [(("p".data, "1.0".data),
            ⟨true, some { mVersion := some "1.0".data
                          dependencies := [("x".data, "*".data)] }⟩)] } : World).registry ∧
    (install_plugin
        { emptyWorld with
          remoteFiles := [(("p".data, "1.0".data),
            ⟨true, some { mVersion := some "1.0".data
                          dependencies := [("x".data, "*".data)] }⟩)] }
        "p".data (some "1.0".data)).2.lockfile
      = ({ emptyWorld with
          remoteFiles := [(("p".data, "1.0".data),
            ⟨true, some { mVersion := some "1.0".data
                          dependencies := [("x".data, "*".data)] }⟩)] } : World).lockfile :=
  C4_install_violation_preserves_state
    { emptyWorld with
      remoteFiles := [(("p".data, "1.0".data),
        ⟨true, some { mVersion := some "1.0".data
                      dependencies := [("x".data, "*".data)] }⟩)] }
    "p".data (some "1.0".data) (by decide)

/-- C9: after `install_plugin(name, version)` succeeds with an explicit
version, the Registry maps `name` to that version and the Lockfile maps
`name` to the same version. -/
theorem C9_install_registers_version
    (w : World) (name v : Str) (w' : World)
    (h : install_plugin w name (some v) = (none, w')) :
    dGet w'.registry name = some ⟨some v⟩ ∧
    dGet w'.lockfile name = some (some v) := by
  unfold install_plugin validateAndCommit at h
  dsimp only at h
  cases hr : _resolve_dependencies
      (readLocalManifest (materialize w name (resolveInstallVersion w name (some v))) name)
      (materialize w name (resolveInstallVersion w name (some v))).registry with
  | none =>
    rw [hr] at h
    simp at h
  | some l =>
    cases l with
    | cons c cs =>
      rw [hr] at h
      simp at h
    | nil =>
      rw [hr] at h
      simp only [Prod.mk.injEq, true_and] at h
      have hw' := h.symm
      subst hw'
      constructor
      · exact dGet_dSet_self _ _ _
      · rw [dGet_lockDerived, dGet_dSet_self]
        rfl

/-- C9 witness: a concrete successful install of `foo@1.0.0` into the empty
world registers the version in both documents, via the theorem. -/
theorem C9_install_registers_version_witness :
    dGet (install_plugin emptyWorld "foo".data (some "1.0.0".data)).2.registry "foo".data
      = some ⟨some "1.0.0".data⟩ ∧
    dGet (install_plugin emptyWorld "foo".data (some "1.0.0".data)).2.lockfile "foo".data
      = some (some "1.0.0".data) :=
  C9_install_registers_version emptyWorld "foo".data "1.0.0".data
    (install_plugin emptyWorld "foo".data (some "1.0.0".data)).2 (by decide)

theorem validateAndCommit_lock {w : World} {n v : Str} {w' : World}
    (h : validateAndCommit w n v = (none, w')) :
    w'.lockfile = lockDerived w'.registry := by
  unfold validateAndCommit at h
  cases hr : _resolve_dependencies (readLocalManifest w n) w.registry with
  | none => rw [hr] at h; simp at h
  | some l =>
    cases l with
    | cons c cs => rw [hr] at h; simp at h
    | nil =>
      rw [hr] at h
      simp only [Prod.mk.injEq, true_and] at h
      have hw' := h.symm
      subst hw'
      rfl

/-- C1 counterexample: with Registry `{}` and a stale Lockfile
`{bar: {"version": "1.0.0"}}`, `uninstall_plugin("foo")` succeeds but the
Lockfile still contains `bar`, so it is not the map derived from the
Registry — `uninstall_plugin` edits the Lockfile in place instead of
regenerating it, so the claimed invariant does not hold "regardless of the
Lockfile's content before the operation". -/
theorem C1_counterexample :
    (uninstall_plugin
        { emptyWorld with lockfile := [("bar".data, some "1.0.0".data)] }
        "foo".data).1 = none ∧
    ¬ (uninstall_plugin
        { emptyWorld with lockfile := [("bar".data, some "1.0.0".data)] }
        "foo".data).2.lockfile
      = lockDerived (uninstall_plugin
          { emptyWorld with lockfile := [("bar".data, some "1.0.0".data)] }
          "foo".data).2.registry := by
  decide

/-- C1 (amended): after a successful `install_plugin`, `update_plugin` that
commits a new version, or `write_lockfile`, the Lockfile equals the map
derived from the Registry regardless of its prior content; a successful
`update_plugin` either was a no-op (world unchanged) or committed and
regenerated the Lockfile; `uninstall_plugin` only preserves the equality —
if the Lockfile was derived from the Registry before the operation, it
still is after. -/
theorem C1_lockfile_derivation :
    (∀ (w : World) (name : Str) (vOpt : Option Str) (w' : World),
        install_plugin w name vOpt = (none, w') →
        w'.lockfile = lockDerived w'.registry) ∧
    (∀ (w : World) (name : Str) (tv : Option Str) (w' : World),
        update_plugin w name tv = (none, w') →
        w' = w ∨ w'.lockfile = lockDerived w'.registry) ∧
    (∀ (w : World) (name : Str) (w' : World),
        uninstall_plugin w name = (none, w') →
        w.lockfile = lockDerived w.registry →
        w'.lockfile = lockDerived w'.registry) ∧
    (∀ (w w' : World), write_lockfile w = (none, w') →
        w'.lockfile = lockDerived w'.registry) := by
  refine ⟨?_, ?_, ?_, ?_⟩
  · intro w name vOpt w' h
    unfold install_plugin at h
    dsimp only at h
    exact validateAndCommit_lock h
  · intro w name tv w' h
    unfold update_plugin at h
    cases hg : dGet w.registry name with
    | none => rw [hg] at h; simp at h
    | some e =>
      rw [hg] at h
      dsimp only at h
      split at h
      · simp only [Prod.mk.injEq, true_and] at h
        exact Or.inl h.symm
      · simp at h
      · split at h
        · simp only [Prod.mk.injEq, true_and] at h
          exact Or.inl h.symm
        · exact Or.inr (validateAndCommit_lock h)
  · intro w name w' h hlock
    unfold uninstall_plugin at h
    dsimp only at h
    simp only [Prod.mk.injEq, true_and] at h
    have hw' := h.symm
    subst hw'
    by_cases hreg : dHas w.registry name = true
    · have hlk : dHas w.lockfile name = true := by
        rw [hlock, dHas_lockDerived]
        exact hreg
      rw [if_pos hreg]
      rw [if_pos (show dHas w.lockfile name = true from hlk)]
      show dDel w.lockfile name = lockDerived (dDel w.registry name)
      rw [hlock, lockDerived_dDel]
    · have hlk : ¬ dHas w.lockfile name = true := by
        rw [hlock, dHas_lockDerived]
        exact hreg
      rw [if_neg hreg]
      rw [if_neg (show ¬ dHas w.lockfile name = true from hlk)]
      exact hlock
  · intro w w' h
    unfold write_lockfile at h
    simp only [Prod.mk.injEq, true_and] at h
    have hw' := h.symm
    subst hw'
    rfl

/-- C1 witness: the invariant at concrete inputs — a fresh install derives
the Lockfile, a committing update from a stale Lockfile regenerates it,
and an uninstall from a consistent state keeps it derived — via the
amended theorem. -/
theorem C1_lockfile_derivation_witness :
    (install_plugin emptyWorld "demo".data none).2.lockfile
      = lockDerived (install_plugin emptyWorld "demo".data none).2.registry ∧
    ((update_plugin
        { emptyWorld with
          registry := [("foo".data, ⟨some "1.0.0".data⟩)]
          lockfile := [("bar".data, some "9".data)] }
        "foo".data (some "2.0.0".data)).2
      = { emptyWorld with
          registry := [("foo".data, ⟨some "1.0.0".data⟩)]
          lockfile := [("bar".data, some "9".data)] } ∨
     (update_plugin
        { emptyWorld with
          registry := [("foo".data, ⟨some "1.0.0".data⟩)]
          lockfile := [("bar".data, some "9".data)] }
        "foo".data (some "2.0.0".data)).2.lockfile
      = lockDerived (update_plugin
          { emptyWorld with
            registry := [("foo".data, ⟨some "1.0.0".data⟩)]
            lockfile := [("bar".data, some "9".data)] }
          "foo".data (some "2.0.0".data)).2.registry) ∧
    (uninstall_plugin emptyWorld "bar".data).2.lockfile
      = lockDerived (uninstall_plugin emptyWorld "bar".data).2.registry :=
  ⟨C1_lockfile_derivation.1 emptyWorld "demo".data none
      (install_plugin emptyWorld "demo".data none).2 (by decide),
   C1_lockfile_derivation.2.1
      { emptyWorld with
        registry := [("foo".data, ⟨some "1.0.0".data⟩)]
        lockfile := [("bar".data, some "9".data)] }
      "foo".data (some "2.0.0".data)
      (update_plugin
        { emptyWorld with
          registry := [("foo".data, ⟨some "1.0.0".data⟩)]
          lockfile := [("bar".data, some "9".data)] }
        "foo".data (some "2.0.0".data)).2 (by decide),
   C1_lockfile_derivation.2.2.1 emptyWorld "bar".data
      (uninstall_plugin emptyWorld "bar".data).2 (by decide) (by decide)⟩

/-- The version list `update_plugin` consults when no target version is
given: the API details when the API is reachable and knows the plugin,
otherwise the legacy index entry. -/
def remoteVersions (w : World) (name : Str) : Option (List Str) :=
  if w.apiUp && dHas w.apiPlugins name then
    some ((dGet w.apiPlugins name).getD ⟨[], []⟩).versions
  else (dGet w.remoteIndex name).map IdxEntry.versions

/-- C5: `update_plugin` fails immediately (state untouched) when the name
is not in the Registry; it is a no-op success — Registry, Lockfile and the
fetch log all unchanged — when the given target equals the installed
version, or, with no target, when the remote's maximum available version
is not strictly greater than the installed one under the Version
Comparator. -/
theorem C5_update_noop :
    (∀ (w : World) (name : Str) (tv : Option Str),
        dGet w.registry name = none →
        update_plugin w name tv
          = (some (.runtimeError ("Plugin not installed: ".data ++ name)), w)) ∧
    (∀ (w : World) (name : Str) (e : RegEntry),
        dGet w.registry name = some e →
        update_plugin w name (some (e.version.getD "0".data)) = (none, w)) ∧
    (∀ (w : World) (name : Str) (e : RegEntry) (vs : List Str) (latest : Str) (r : Int),
        dGet w.registry name = some e →
        remoteVersions w name = some vs →
        pyMaxByVersionKey vs = some latest →
        _cmp_semver latest (e.version.getD "0".data) = some r →
        r ≤ 0 →
        update_plugin w name none = (none, w)) := by
  refine ⟨?_, ?_, ?_⟩
  · intro w name tv h
    simp [update_plugin, h]
  · intro w name e h
    simp [update_plugin, h]
  · intro w name e vs latest r hreg hrv hmax hcmp hle
    unfold update_plugin
    rw [hreg]
    dsimp only
    have hres : updateResolve w name (e.version.getD "0".data) = .noop := by
      unfold updateResolve
      by_cases hapi : (w.apiUp && dHas w.apiPlugins name) = true
      · rw [if_pos hapi]
        unfold remoteVersions at hrv
        rw [if_pos hapi] at hrv
        have hvs : ((dGet w.apiPlugins name).getD ⟨[], []⟩).versions = vs :=
          Option.some.inj hrv
        cases hv : ((dGet w.apiPlugins name).getD ⟨[], []⟩).versions with
        | nil =>
          rfl
        | cons v0 vrest =>
          have hmax' : pyMaxByVersionKey (v0 :: vrest) = some latest := by
            rw [← hv, hvs]
            exact hmax
          dsimp only
          rw [hmax']
          simp only [Option.getD_some]
          rw [hcmp]
          simp [show ¬ (0 : Int) < r by omega]
      · rw [if_neg hapi]
        unfold updateResolveLegacy
        unfold remoteVersions at hrv
        rw [if_neg hapi] at hrv
        rcases Option.map_eq_some'.mp hrv with ⟨idxE, hIdx, hvs⟩
        rw [hIdx]
        dsimp only
        cases hv : idxE.versions with
        | nil => rfl
        | cons v0 vrest =>
          have hmax' : pyMaxByVersionKey (v0 :: vrest) = some latest := by
            rw [← hv, hvs]
            exact hmax
          dsimp only
          rw [hmax']
          simp only [Option.getD_some]
          rw [hcmp]
          simp [show ¬ (0 : Int) < r by omega]
    rw [hres]

/-- C5 witness: a missing plugin fails; `update("foo", "1.0.0")` with
`foo@1.0.0` installed and `update("foo")` with remote latest `1.0.0` are
both no-ops, via the theorem. -/
theorem C5_update_noop_witness :
    update_plugin emptyWorld "foo".data none
      = (some (.runtimeError ("Plugin not installed: ".data ++ "foo".data)), emptyWorld) ∧
    update_plugin
        { emptyWorld with
          registry := [("foo".data, ⟨some "1.0.0".data⟩)]
          lockfile := [("foo".data, some "1.0.0".data)]
          remoteIndex := [("foo".data, ⟨["1.0.0".data], "1.0.0".data⟩)] }
        "foo".data (some "1.0.0".data)
      = (none, { emptyWorld with
          registry := [("foo".data, ⟨some "1.0.0".data⟩)]
          lockfile := [("foo".data, some "1.0.0".data)]
          remoteIndex := [("foo".data, ⟨["1.0.0".data], "1.0.0".data⟩)] }) ∧
    update_plugin
        { emptyWorld with
          registry := [("foo".data, ⟨some "1.0.0".data⟩)]
          lockfile := [("foo".data, some "1.0.0".data)]
          remoteIndex := [("foo".data, ⟨["1.0.0".data], "1.0.0".data⟩)] }
        "foo".data none
      = (none, { emptyWorld with
          registry := [("foo".data, ⟨some "1.0.0".data⟩)]
          lockfile := [("foo".data, some "1.0.0".data)]
          remoteIndex := [("foo".data, ⟨["1.0.0".data], "1.0.0".data⟩)] }) :=
  ⟨C5_update_noop.1 emptyWorld "foo".data none (by decide),
   C5_update_noop.2.1
     { emptyWorld with
       registry := [("foo".data, ⟨some "1.0.0".data⟩)]
       lockfile := [("foo".data, some "1.0.0".data)]
       remoteIndex := [("foo".data, ⟨["1.0.0".data], "1.0.0".data⟩)] }
     "foo".data ⟨some "1.0.0".data⟩ (by decide),
   C5_update_noop.2.2
     { emptyWorld with
       registry := [("foo".data, ⟨some "1.0.0".data⟩)]
       lockfile := [("foo".data, some "1.0.0".data)]
       remoteIndex := [("foo".data, ⟨["1.0.0".data], "1.0.0".data⟩)] }
     "foo".data ⟨some "1.0.0".data⟩ ["1.0.0".data] "1.0.0".data 0
     (by decide) (by decide) (by decide) (by decide) (by decide)⟩

/-! ### Version-normalization lemmas (for C2) -/

theorem pyNormalizeVersion_ne_nil {v : Str} (hv : v ≠ []) : pyNormalizeVersion v ≠ [] := by
  unfold pyNormalizeVersion
  rw [if_neg hv]
  cases hs : splitOnDot v with
  | nil => simp [hv]
  | cons a t =>
    cases t with
    | nil => simp
    | cons b t2 =>
      cases t2 with
      | nil => simp
      | cons c t3 => simp [hv]

theorem splitOnDot_two {v a b : Str} (h : splitOnDot v = [a, b]) : v = a ++ '.' :: b := by
  have hj := joinChar_splitOnChar '.' v
  unfold splitOnDot at h
  rw [h] at hj
  exact hj.symm

theorem splitOnDot_one {v a : Str} (h : splitOnDot v = [a]) : v = a := by
  have hj := joinChar_splitOnChar '.' v
  unfold splitOnDot at h
  rw [h] at hj
  exact hj.symm

theorem pyNormalizeVersion_two {v a b : Str} (h : splitOnDot v = [a, b]) :
    pyNormalizeVersion v = v ++ ".0".data := by
  have hv : v ≠ [] := by
    intro hnil
    subst hnil
    simp [splitOnDot, splitOnChar] at h
  unfold pyNormalizeVersion
  rw [if_neg hv, h]
  dsimp only
  rw [splitOnDot_two h]

theorem pyNormalizeVersion_one {v a : Str} (hv : v ≠ []) (h : splitOnDot v = [a]) :
    pyNormalizeVersion v = v ++ ".0.0".data := by
  unfold pyNormalizeVersion
  rw [if_neg hv, h]
  dsimp only
  rw [← splitOnDot_one h]

theorem api_publish_success {w : World} {dir : PluginDir} {v : Str}
    (hpy : dir.hasPluginPy = true) (hapi : w.apiUp = true) (hv : v ≠ []) :
    api_publish_plugin w dir (some v)
      = (none, { w with apiPublishLog := w.apiPublishLog
          ++ [some (pyNormalizeVersion v)] }) := by
  have hfill : fillFromManifest dir (some v) (fun m => m.mVersion) = some v := by
    unfold fillFromManifest
    cases dir.manifest with
    | none => rfl
    | some m => simp [optFalsy, hv]
  unfold api_publish_plugin
  rw [hfill]
  dsimp only
  rw [if_neg hv]
  simp [hpy, hapi, pyNormalizeVersion_ne_nil hv]

theorem api_publish_api_down {w : World} {dir : PluginDir} {v : Option Str}
    (hpy : dir.hasPluginPy = true) (hapi : w.apiUp = false) :
    api_publish_plugin w dir v = (some .apiError, w) := by
  unfold api_publish_plugin
  simp [hpy, hapi]

/-- C2 counterexample: publishing `p` whose manifest version is `"0.1"`
with the API unreachable goes through the legacy backend, which records
`"0.1"` — not `"0.1.0"` — in the remote files and the remote index, so
the zero-filling does not happen on the legacy-filesystem fallback path. -/
theorem C2_counterexample :
    (publish_plugin
        { emptyWorld with
          localDirs := [("p".data, ⟨true, some { mVersion := some "0.1".data }⟩)] }
        "p".data none).1 = none ∧
    (publish_plugin
        { emptyWorld with
          localDirs := [("p".data, ⟨true, some { mVersion := some "0.1".data }⟩)] }
        "p".data none).2.remoteIndex
      = [("p".data, ⟨["0.1".data], "0.1".data⟩)] ∧
    dGet (publish_plugin
        { emptyWorld with
          localDirs := [("p".data, ⟨true, some { mVersion := some "0.1".data }⟩)] }
        "p".data none).2.remoteFiles ("p".data, "0.1.0".data) = none := by
  decide

/-- C2 (amended): the 1-or-2-component zero-fill to 3 components happens
only on the API path — `api_publish_plugin` normalizes the version before
the POST (`"0.1"` → `"0.1.0"`, `"1"` → `"1.0.0"`); the legacy fallback
path publishes the resolved version string verbatim into the remote files
and index. -/
theorem C2_publish_version_normalization :
    (∀ (w : World) (name : Str) (dir : PluginDir) (vOpt : Option Str),
        dGet w.localDirs name = some dir →
        dir.hasPluginPy = true →
        w.apiUp = true →
        vOpt.getD ((dir.manifest.getD {}).mVersion.getD "0.1".data) ≠ [] →
        publish_plugin w name vOpt
          = (none, { w with apiPublishLog := w.apiPublishLog
              ++ [some (pyNormalizeVersion
                  (vOpt.getD ((dir.manifest.getD {}).mVersion.getD "0.1".data)))] })) ∧
    (∀ (v a b : Str), splitOnDot v = [a, b] →
        pyNormalizeVersion v = v ++ ".0".data) ∧
    (∀ (v a : Str), v ≠ [] → splitOnDot v = [a] →
        pyNormalizeVersion v = v ++ ".0.0".data) ∧
    (∀ (w : World) (name : Str) (dir : PluginDir) (vOpt : Option Str),
        dGet w.localDirs name = some dir →
        dir.hasPluginPy = true →
        w.apiUp = false →
        ∃ e', (publish_plugin w name vOpt).1 = none ∧
          dGet (publish_plugin w name vOpt).2.remoteFiles
            (name, vOpt.getD ((dir.manifest.getD {}).mVersion.getD "0.1".data))
              = some dir ∧
          dGet (publish_plugin w name vOpt).2.remoteIndex name = some e' ∧
          vOpt.getD ((dir.manifest.getD {}).mVersion.getD "0.1".data) ∈ e'.versions) := by
  refine ⟨?_, ?_, ?_, ?_⟩
  · intro w name dir vOpt hdir hpy hapi hv
    unfold publish_plugin
    rw [hdir]
    dsimp only
    rw [api_publish_success hpy hapi hv]
  · intro v a b h
    exact pyNormalizeVersion_two h
  · intro v a hv h
    exact pyNormalizeVersion_one hv h
  · intro w name dir vOpt hdir hpy hapi
    unfold publish_plugin
    rw [hdir]
    dsimp only
    rw [api_publish_api_down hpy hapi]
    dsimp only
    rw [if_neg (by simp [hpy])]
    by_cases hmem :
        vOpt.getD ((dir.manifest.getD {}).mVersion.getD "0.1".data)
          ∈ ((dGet w.remoteIndex name).getD
              ⟨[], vOpt.getD ((dir.manifest.getD {}).mVersion.getD "0.1".data)⟩).versions
    · rw [if_pos (by simpa using hmem)]
      exact ⟨_, rfl, dGet_dSet_self _ _ _, dGet_dSet_self _ _ _, hmem⟩
    · rw [if_neg (by simpa using hmem)]
      refine ⟨_, rfl, dGet_dSet_self _ _ _, dGet_dSet_self _ _ _, ?_⟩
      exact (List.perm_insertionSort vKeyGe _).mem_iff.mpr (by simp)

/-- C2 witness: an API publish of manifest version `"0.1"` sends `"0.1.0"`,
the zero-fill equations at `"0.1"` and `"1"`, and a legacy publish that
records the raw `"0.1"`, via the amended theorem. -/
theorem C2_publish_version_normalization_witness :
    publish_plugin
        { emptyWorld with
          apiUp := true
          localDirs := [("p".data, ⟨true, some { mVersion := some "0.1".data }⟩)] }
        "p".data none
      = (none, { emptyWorld with
          apiUp := true
          localDirs := [("p".data, ⟨true, some { mVersion := some "0.1".data }⟩)]
          apiPublishLog := [some (pyNormalizeVersion "0.1".data)] }) ∧
    pyNormalizeVersion "0.1".data = "0.1".data ++ ".0".data ∧
    pyNormalizeVersion "1".data = "1".data ++ ".0.0".data ∧
    (∃ e', (publish_plugin
        { emptyWorld with
          localDirs := [("p".data, ⟨true, some { mVersion := some "0.1".data }⟩)] }
        "p".data none).1 = none ∧
      dGet (publish_plugin
        { emptyWorld with
          localDirs := [("p".data, ⟨true, some { mVersion := some "0.1".data }⟩)] }
        "p".data none).2.remoteFiles ("p".data, "0.1".data) = some ⟨true, some { mVersion := some "0.1".data }⟩ ∧
      dGet (publish_plugin
        { emptyWorld with
          localDirs := [("p".data, ⟨true, some { mVersion := some "0.1".data }⟩)] }
        "p".data none).2.remoteIndex "p".data = some e' ∧
      "0.1".data ∈ e'.versions) :=
  ⟨C2_publish_version_normalization.1
      { emptyWorld with
        apiUp := true
        localDirs := [("p".data, ⟨true, some { mVersion := some "0.1".data }⟩)] }
      "p".data ⟨true, some { mVersion := some "0.1".data }⟩ none
      (by decide) (by decide) (by decide) (by decide),
   C2_publish_version_normalization.2.1 "0.1".data "0".data "1".data (by decide),
   C2_publish_version_normalization.2.2.1 "1".data "1".data (by decide) (by decide),
   C2_publish_version_normalization.2.2.2
      { emptyWorld with
        localDirs := [("p".data, ⟨true, some { mVersion := some "0.1".data }⟩)] }
      "p".data ⟨true, some { mVersion := some "0.1".data }⟩ none
      (by decide) (by decide) (by decide)⟩

/-! ### Constraint-satisfier lemmas (for C6) -/

theorem pyStrip_eqeq (v : Str) (hv : pyStripRight v = v) :
    pyStrip ('=' :: '=' :: v) = '=' :: '=' :: v := by
  have hdrop : ('=' :: '=' :: v).dropWhile isPySpace = '=' :: '=' :: v := by
    rw [List.dropWhile_cons]
    simp [show isPySpace '=' = false from rfl]
  unfold pyStrip
  rw [hdrop]
  cases hve : v with
  | nil => subst hve; decide
  | cons c t =>
    subst hve
    exact pyStripRight_append (a := ['=', '=']) hv (by simp)

theorem clean_cmp_self {v : Str} (h : cleanVersion v) : _cmp_semver v v = some 0 :=
  cmp_semver_self_of_parse (clean_parse h)

/-- C6 counterexample: `satisfies(v, "==" + v)` is false at `v = " "` (the
strip happens to the constraint but not to the version), `satisfies(v,
">=" + v)` raises a `ValueError` at `v = "a"` instead of returning true,
and a constraint with surrounding whitespace and no operator is compared
against its stripped form, not string-equal to the whole constraint. -/
theorem C6_counterexample :
    _satisfies " ".data ("==".data ++ " ".data) = some false ∧
    _satisfies "a".data (">=".data ++ "a".data) = none ∧
    (_satisfies "1.0".data " 1.0".data = some true ∧ ¬ "1.0".data = " 1.0".data) := by
  decide

/-- C6 (amended): the constraint satisfier returns true on the empty and
`"*"` constraints for every version; after stripping the constraint, an
`"=="` prefix means exact string equality with the remainder, a `">="`
prefix defers to the Version Comparator (propagating its parse error), and
anything else means exact string equality with the stripped constraint.
`satisfies(v, "==" + v)` holds for every `v` without trailing whitespace,
`satisfies(v, ">=" + v)` holds for every clean dotted-numeric `v`, and
`satisfies("1.0.0", ">=1.2.0")` is false. -/
theorem C6_constraint_satisfier :
    (∀ v : Str, _satisfies v [] = some true ∧ _satisfies v ['*'] = some true) ∧
    (∀ v c : Str, c ≠ [] → c ≠ ['*'] →
        ['=', '='].isPrefixOf (pyStrip c) = true →
        _satisfies v c = some (decide (v = (pyStrip c).drop 2))) ∧
    (∀ v c : Str, c ≠ [] → c ≠ ['*'] →
        ['>', '='].isPrefixOf (pyStrip c) = true →
        _satisfies v c = (match _cmp_semver v ((pyStrip c).drop 2) with
          | some r => some (decide (0 ≤ r))
          | none => none)) ∧
    (∀ v c : Str, c ≠ [] → c ≠ ['*'] →
        ['=', '='].isPrefixOf (pyStrip c) = false →
        ['>', '='].isPrefixOf (pyStrip c) = false →
        _satisfies v c = some (decide (v = pyStrip c))) ∧
    (∀ v : Str, pyStripRight v = v →
        _satisfies v ('=' :: '=' :: v) = some true) ∧
    (∀ v : Str, cleanVersion v →
        _satisfies v ('>' :: '=' :: v) = some true) ∧
    _satisfies "1.0.0".data ">=1.2.0".data = some false := by
  refine ⟨?_, ?_, ?_, ?_, ?_, ?_, by decide⟩
  · intro v
    exact ⟨by simp [_satisfies], by simp [_satisfies]⟩
  · intro v c h1 h2 hpre
    unfold _satisfies
    rw [if_neg (by simp [h1, h2])]
    dsimp only
    rw [if_pos hpre]
  · intro v c h1 h2 hpre
    have hne : ['=', '='].isPrefixOf (pyStrip c) = false := by
      rcases List.isPrefixOf_iff_prefix.mp hpre with ⟨t, ht⟩
      rw [← ht]
      rfl
    unfold _satisfies
    rw [if_neg (by simp [h1, h2])]
    dsimp only
    rw [hne, if_neg (by simp), if_pos hpre]
  · intro v c h1 h2 hp1 hp2
    unfold _satisfies
    rw [if_neg (by simp [h1, h2])]
    dsimp only
    rw [hp1, hp2, if_neg (by simp), if_neg (by simp)]
  · intro v hv
    have hstrip := pyStrip_eqeq v hv
    unfold _satisfies
    rw [if_neg (by simp)]
    dsimp only
    rw [hstrip]
    simp [List.isPrefixOf]
  · intro v hv
    have hv0 : v ≠ [] := by
      intro hnil
      subst hnil
      exact absurd ((hv [] (by decide)).1) (by simp)
    have hstrip : pyStrip ('>' :: '=' :: v) = '>' :: '=' :: v := by
      apply pyStrip_of_no_space
      intro x hx
      rcases List.mem_cons.mp hx with rfl | hx1
      · decide
      · rcases List.mem_cons.mp hx1 with rfl | hx2
        · decide
        · exact clean_no_space hv x hx2
    unfold _satisfies
    rw [if_neg (by simp)]
    dsimp only
    rw [hstrip]
    rw [show (['=', '='].isPrefixOf ('>' :: '=' :: v)) = false from rfl]
    rw [if_neg (by simp)]
    rw [show (['>', '='].isPrefixOf ('>' :: '=' :: v)) = true by simp [List.isPrefixOf]]
    rw [if_pos rfl]
    show (match _cmp_semver v (('>' :: '=' :: v).drop 2) with
      | some r => some (decide (0 ≤ r))
      | none => none) = some true
    rw [show ('>' :: '=' :: v).drop 2 = v from rfl, clean_cmp_self hv]
    decide

/-- C6 witness: the `==` and `>=` identities at `v = "1.0"` and the grammar
clauses at concrete constraints, via the amended theorem. -/
theorem C6_constraint_satisfier_witness :
    _satisfies "1.0".data ('=' :: '=' :: "1.0".data) = some true ∧
    _satisfies "1.0".data ('>' :: '=' :: "1.0".data) = some true ∧
    _satisfies "2.0".data "==2.0".data
      = some (decide ("2.0".data = (pyStrip "==2.0".data).drop 2)) :=
  ⟨C6_constraint_satisfier.2.2.2.2.1 "1.0".data (by decide),
   C6_constraint_satisfier.2.2.2.2.2.1 "1.0".data (by decide),
   C6_constraint_satisfier.2.1 "2.0".data "==2.0".data
     (by decide) (by decide) (by decide)⟩

/-! ### Comparator/sort-key bridging lemmas (for C8) -/

theorem cmpLists_cons (x y : Int) (xs ys : List Int) :
    cmpLists (x :: xs) (y :: ys)
      = if x < y then -1 else if x > y then 1 else cmpLists xs ys := rfl

theorem cmpZeros2 : ∀ (ka kb : Nat),
    cmpLists (List.replicate ka 0) (List.replicate kb 0) = 0
  | 0, _ => rfl
  | _ + 1, 0 => rfl
  | ka + 1, kb + 1 => by
    rw [List.replicate_succ, List.replicate_succ, cmpLists_cons]
    simp [cmpZeros2 ka kb]

theorem cmpZerosR : ∀ (l : List Int) (ka kb : Nat), (∀ x ∈ l, 0 ≤ x) →
    0 ≤ cmpLists (l ++ List.replicate ka 0) (List.replicate kb 0)
  | [], ka, kb, _ => by
    rw [List.nil_append, cmpZeros2 ka kb]
  | x :: xs, ka, 0, _ => by
    rw [List.replicate]
    exact le_refl 0
  | x :: xs, ka, kb + 1, h => by
    rw [List.replicate_succ, List.cons_append, cmpLists_cons]
    rw [if_neg (not_lt.mpr (h x (by simp)))]
    by_cases hx : x > 0
    · rw [if_pos hx]
      decide
    · rw [if_neg hx]
      exact cmpZerosR xs ka kb (fun y hy => h y (by simp [hy]))

theorem cmpLists_pad_nonneg : ∀ (pa pb : List Int) (ka kb : Nat),
    (∀ x ∈ pa, 0 ≤ x) → (∀ x ∈ pb, 0 ≤ x) → tupleLt pa pb = false →
    0 ≤ cmpLists (pa ++ List.replicate ka 0) (pb ++ List.replicate kb 0)
  | [], [], ka, kb, _, _, _ => by
    rw [List.nil_append, List.nil_append, cmpZeros2 ka kb]
  | [], b :: ys, _, _, _, _, hlt => by simp [tupleLt] at hlt
  | a :: xs, [], ka, kb, ha, _, _ => by
    rw [List.nil_append]
    exact cmpZerosR (a :: xs) ka kb ha
  | a :: xs, b :: ys, ka, kb, ha, hb, hlt => by
    rw [tupleLt_cons] at hlt
    rw [List.cons_append, List.cons_append, cmpLists_cons]
    by_cases hab : a < b
    · rw [if_pos hab] at hlt
      exact absurd hlt (by simp)
    · rw [if_neg hab] at hlt
      rw [if_neg hab]
      by_cases hba : a > b
      · rw [if_pos hba]
        decide
      · rw [if_neg hba] at hlt
        rw [if_neg hba]
        exact cmpLists_pad_nonneg xs ys ka kb
          (fun y hy => ha y (by simp [hy])) (fun y hy => hb y (by simp [hy])) hlt

/-- "`a` is at least `b` under the Version Comparator": the comparison is
defined and non-negative. -/
def cmpGe (a b : Str) : Prop := ∃ r, _cmp_semver a b = some r ∧ 0 ≤ r

theorem cmpGe_of_vKeyGe {a b : Str} (ha : cleanVersion a) (hb : cleanVersion b)
    (h : vKeyGe a b) : cmpGe a b := by
  have hna := clean_key_nonneg ha
  have hnb := clean_key_nonneg hb
  rw [clean_key ha] at hna
  rw [clean_key hb] at hnb
  have hlt : tupleLt ((splitOnDot a).map (fun g => ((digitsToNat g : Nat) : Int)))
      ((splitOnDot b).map (fun g => ((digitsToNat g : Nat) : Int))) = false := by
    have h' := h
    unfold vKeyGe at h'
    rw [clean_key ha, clean_key hb] at h'
    exact h'
  unfold cmpGe _cmp_semver
  rw [clean_parse ha, clean_parse hb]
  dsimp only
  exact ⟨_, rfl, cmpLists_pad_nonneg _ _ _ _ hna hnb hlt⟩

theorem cmpGe_self_of_clean {a : Str} (ha : cleanVersion a) : cmpGe a a :=
  ⟨0, clean_cmp_self ha, le_refl 0⟩

theorem sortedVersions_ok {l : List Str} (hs : l.Sorted vKeyGe)
    (hc : ∀ u ∈ l, cleanVersion u) :
    l.Pairwise cmpGe ∧ ∀ u ∈ l, cmpGe (l.headD []) u := by
  have hp : l.Pairwise cmpGe :=
    hs.imp_of_mem (fun hma hmb hr => cmpGe_of_vKeyGe (hc _ hma) (hc _ hmb) hr)
  refine ⟨hp, ?_⟩
  intro u hu
  cases l with
  | nil => simp at hu
  | cons x t =>
    rcases List.mem_cons.mp hu with rfl | hut
    · exact cmpGe_self_of_clean (hc u (by simp))
    · exact List.rel_of_pairwise_cons hp hut

/-- Number of occurrences of `v` in a version list. -/
def countOcc (v : Str) (l : List Str) : Nat :=
  (l.filter (fun u => decide (u = v))).length

theorem countOcc_eq_zero {v : Str} {l : List Str} (h : v ∉ l) : countOcc v l = 0 := by
  unfold countOcc
  rw [List.filter_eq_nil_iff.mpr]
  · rfl
  · intro a ha
    simp only [decide_eq_true_eq]
    intro heq
    subst heq
    exact h ha

theorem countOcc_perm {v : Str} {l1 l2 : List Str} (h : l1.Perm l2) :
    countOcc v l1 = countOcc v l2 :=
  (h.filter _).length_eq

theorem countOcc_append (v : Str) (l1 l2 : List Str) :
    countOcc v (l1 ++ l2) = countOcc v l1 + countOcc v l2 := by
  unfold countOcc
  rw [List.filter_append, List.length_append]

theorem countOcc_singleton (v : Str) : countOcc v [v] = 1 := by
  simp [countOcc]

theorem countOcc_eq_one {v : Str} : ∀ {l : List Str}, l.Nodup → v ∈ l → countOcc v l = 1 := by
  intro l
  induction l with
  | nil => intro _ h; simp at h
  | cons x t ih =>
    intro hd hm
    rw [List.nodup_cons] at hd
    by_cases hx : x = v
    · subst hx
      have h0 := countOcc_eq_zero (v := x) hd.1
      unfold countOcc at h0 ⊢
      rw [List.filter_cons, if_pos (by simp)]
      simp [h0]
    · rcases List.mem_cons.mp hm with rfl | hmt
      · exact absurd rfl hx
      · unfold countOcc
        rw [List.filter_cons, if_neg (by simp [hx])]
        exact ih hd.2 hmt

/-- The legacy remote-index invariant of the spec: versions sorted
(descending, non-strictly) by the sort key, no duplicates, all clean. -/
def idxEntryOk (e : IdxEntry) : Prop :=
  e.versions.Sorted vKeyGe ∧ e.versions.Nodup ∧ ∀ u ∈ e.versions, cleanVersion u

instance : DecidablePred idxEntryOk := fun e => by
  unfold idxEntryOk List.Sorted
  infer_instance

/-- Boolean form of "the prior index entry for `name`, if any, satisfies
the invariant". -/
def priorIdxOkB (w : World) (name : Str) : Bool :=
  match dGet w.remoteIndex name with
  | none => true
  | some e => decide (idxEntryOk e)

/-- C8 counterexample: with a reachable prior index `{p: {versions: ["1"],
latest: "1"}}`, publishing `p@1.-1` through the legacy backend yields
`versions = ["1.-1", "1"]` and `latest = "1.-1"`, although the Version
Comparator orders `"1.-1" < "1"` — so `latest` is not the maximum under
the comparator's ordering and `versions` is not sorted descending under
it (the sort key treats `(1,)` as less than `(1,-1)`, the comparator
zero-pads and disagrees). -/
theorem C8_counterexample :
    (publish_plugin
        { emptyWorld with
          localDirs := [("p".data, ⟨true, some { mVersion := some "1.-1".data }⟩)]
          remoteIndex := [("p".data, ⟨["1".data], "1".data⟩)] }
        "p".data none).1 = none ∧
    (publish_plugin
        { emptyWorld with
          localDirs := [("p".data, ⟨true, some { mVersion := some "1.-1".data }⟩)]
          remoteIndex := [("p".data, ⟨["1".data], "1".data⟩)] }
        "p".data none).2.remoteIndex
      = [("p".data, ⟨["1.-1".data, "1".data], "1.-1".data⟩)] ∧
    _cmp_semver "1.-1".data "1".data = some (-1) := by
  decide

/-- C8 (amended): after a legacy publish of a clean (digits-and-dots)
version onto an index entry that satisfies the invariant (or is absent),
the entry contains the published version exactly once, is pairwise ordered
(non-strictly descending) under the Version Comparator, and `latest` is
its head, which the comparator orders at least as high as every entry. -/
theorem C8_legacy_publish_index_invariant
    (w : World) (name : Str) (dir : PluginDir) (versionOpt : Option Str)
    (hdir : dGet w.localDirs name = some dir)
    (hpy : dir.hasPluginPy = true)
    (hapi : w.apiUp = false)
    (hclean : cleanVersion
      (versionOpt.getD ((dir.manifest.getD {}).mVersion.getD "0.1".data)))
    (hprior : priorIdxOkB w name = true) :
    ∃ e', (publish_plugin w name versionOpt).1 = none ∧
      dGet (publish_plugin w name versionOpt).2.remoteIndex name = some e' ∧
      countOcc (versionOpt.getD ((dir.manifest.getD {}).mVersion.getD "0.1".data))
        e'.versions = 1 ∧
      e'.versions.Pairwise cmpGe ∧
      e'.latest = e'.versions.headD [] ∧
      (∀ u ∈ e'.versions, cmpGe e'.latest u) := by
  unfold publish_plugin
  rw [hdir]
  dsimp only
  rw [api_publish_api_down hpy hapi]
  dsimp only
  rw [if_neg (by simp [hpy])]
  have hold : ((dGet w.remoteIndex name).getD
        ⟨[], versionOpt.getD ((dir.manifest.getD {}).mVersion.getD "0.1".data)⟩).versions.Sorted
          vKeyGe ∧
      ((dGet w.remoteIndex name).getD
        ⟨[], versionOpt.getD ((dir.manifest.getD {}).mVersion.getD "0.1".data)⟩).versions.Nodup ∧
      ∀ u ∈ ((dGet w.remoteIndex name).getD
        ⟨[], versionOpt.getD ((dir.manifest.getD {}).mVersion.getD "0.1".data)⟩).versions,
          cleanVersion u := by
    unfold priorIdxOkB at hprior
    cases hE : dGet w.remoteIndex name with
    | none => simp
    | some e0 =>
      rw [hE] at hprior
      have h0 : idxEntryOk e0 := of_decide_eq_true hprior
      simpa [idxEntryOk] using h0
  by_cases hmem : versionOpt.getD ((dir.manifest.getD {}).mVersion.getD "0.1".data)
      ∈ ((dGet w.remoteIndex name).getD
          ⟨[], versionOpt.getD ((dir.manifest.getD {}).mVersion.getD "0.1".data)⟩).versions
  · rw [if_pos (by simpa using hmem)]
    have hok := sortedVersions_ok hold.1 hold.2.2
    exact ⟨_, rfl, dGet_dSet_self _ _ _,
      countOcc_eq_one hold.2.1 hmem, hok.1, rfl, hok.2⟩
  · rw [if_neg (by simpa using hmem)]
    have hperm := List.perm_insertionSort vKeyGe
      (((dGet w.remoteIndex name).getD
          ⟨[], versionOpt.getD ((dir.manifest.getD {}).mVersion.getD "0.1".data)⟩).versions
        ++ [versionOpt.getD ((dir.manifest.getD {}).mVersion.getD "0.1".data)])
    have hsort := List.sorted_insertionSort vKeyGe
      (((dGet w.remoteIndex name).getD
          ⟨[], versionOpt.getD ((dir.manifest.getD {}).mVersion.getD "0.1".data)⟩).versions
        ++ [versionOpt.getD ((dir.manifest.getD {}).mVersion.getD "0.1".data)])
    have hcl : ∀ u ∈ (((dGet w.remoteIndex name).getD
          ⟨[], versionOpt.getD ((dir.manifest.getD {}).mVersion.getD "0.1".data)⟩).versions
        ++ [versionOpt.getD ((dir.manifest.getD {}).mVersion.getD "0.1".data)]).insertionSort
          vKeyGe, cleanVersion u := by
      intro u hu
      rcases List.mem_append.mp (hperm.mem_iff.mp hu) with h1 | h2
      · exact hold.2.2 u h1
      · simp at h2
        subst h2
        exact hclean
    have hok := sortedVersions_ok hsort hcl
    refine ⟨_, rfl, dGet_dSet_self _ _ _, ?_, hok.1, rfl, hok.2⟩
    rw [countOcc_perm hperm, countOcc_append, countOcc_eq_zero hmem, countOcc_singleton]

/-- C8 witness: publishing clean `1.1` onto the invariant-satisfying prior
entry `{versions: ["1.0"], latest: "1.0"}` through the legacy backend, via
the amended theorem. -/
theorem C8_legacy_publish_index_witness :
    ∃ e', (publish_plugin
        { emptyWorld with
          localDirs := [("p".data, ⟨true, some { mVersion := some "1.1".data }⟩)]
          remoteIndex := [("p".data, ⟨["1.0".data], "1.0".data⟩)] }
        "p".data none).1 = none ∧
      dGet (publish_plugin
        { emptyWorld with
          localDirs := [("p".data, ⟨true, some { mVersion := some "1.1".data }⟩)]
          remoteIndex := [("p".data, ⟨["1.0".data], "1.0".data⟩)] }
        "p".data none).2.remoteIndex "p".data = some e' ∧
      countOcc "1.1".data e'.versions = 1 ∧
      e'.versions.Pairwise cmpGe ∧
      e'.latest = e'.versions.headD [] ∧
      (∀ u ∈ e'.versions, cmpGe e'.latest u) :=
  C8_legacy_publish_index_invariant
    { emptyWorld with
      localDirs := [("p".data, ⟨true, some { mVersion := some "1.1".data }⟩)]
      remoteIndex := [("p".data, ⟨["1.0".data], "1.0".data⟩)] }
    "p".data ⟨true, some { mVersion := some "1.1".data }⟩ none
    (by decide) (by decide) (by decide) (by decide) (by decide)

end AFM
